import Mathlib

/-!
Shallow embedding of `src/catalog_server/client.py`: a read-only, paginated,
query-composable catalog client (`ClientCatalog`) and a lazy chunked-array
client (`ClientArraySource`).

HTTP is modelled by passing the server's responses as explicit data; each
definition transcribes one Python method's handling of those responses.
-/

/-- Python exception kinds raised by the code under study. -/
inductive PyErr where
  | keyError (key : String)
  | assertionError
  | indexError
  | typeError
  | valueError
  | attributeError
  deriving DecidableEq, Repr

/-- A query object (`queries.py` dataclass): `query_type_to_name[type(query)]`
gives `name`, and `dataclasses.fields(query)` with `getattr` gives the
ordered `(field-name, value)` condition list. -/
structure Query where
  name : String
  conds : List (String × String)
  deriving DecidableEq, Repr

/-- One item record of a `/search` response: `{id, type, attributes: {metadata,
container}}`.  `metadata` is kept as an opaque string tag. -/
structure Item where
  id : String
  type : String
  container : String
  metadata : String
  deriving DecidableEq, Repr

/-- The class chosen by `ClientCatalog._get_class`: either `type(self)`
(a catalog) or an entry of the container-dispatch table (identified by the
numeric constructor id stored in the table). -/
inductive NodeCls where
  | catalog
  | containerCls (tag : Nat)
  deriving DecidableEq, Repr

/-- The state of a `ClientCatalog` instance after `__init__`.  The client
handle is an opaque id; `containerDispatch` is the dict built from
`DEFAULT_CONTAINER_DISPATCH.copy()` updated with the given entries, modelled
by its lookup function. -/
structure Catalog where
  client : Nat
  path : List String
  metadata : String
  containerDispatch : String → Option Nat
  queries : List Query

/-- A child node as constructed by `cls(client, path=..., metadata=...,
container_dispatch=...)`.  The dispatch table passed along is always the
parent's (`self.container_dispatch`), so it is not repeated here. -/
structure Node where
  cls : NodeCls
  client : Nat
  path : List String
  metadata : String
  deriving DecidableEq, Repr

/-- `ClientCatalog.DEFAULT_CONTAINER_DISPATCH = {"array": ClientArraySource}`;
`ClientArraySource` is constructor id 0. -/
def defaultDispatch : String → Option Nat :=
  fun tag => if tag = "array" then some 0 else none

/-- `ClientCatalog.__init__`: stores the client, path and metadata, copies
the default dispatch table and updates it with the given one (given entries
win on lookup, dict-update semantics), and freezes the query tuple. -/
def mkCatalog (client : Nat) (path : List String) (metadata : String)
    (dispatch : String → Option Nat) (queries : List Query) : Catalog :=
  { client := client
    path := path
    metadata := metadata
    containerDispatch := fun tag => (dispatch tag).elim (defaultDispatch tag) some
    queries := queries }

/-- `ClientCatalog.search`: builds `type(self)(client=self._client,
path=self._path, queries=self._queries + (query,), metadata=self._metadata,
container_dispatch=self.container_dispatch)`. -/
def ClientCatalog.search (c : Catalog) (q : Query) : Catalog :=
  mkCatalog c.client c.path c.metadata c.containerDispatch (c.queries ++ [q])

/-- The GET-parameter key `filter[<name>][condition][<field>]` used by
`_queries_to_params`. -/
def paramKey (name field : String) : String :=
  "filter[" ++ name ++ "][condition][" ++ field ++ "]"

/-- One assignment `params[f"filter[{name}][condition][{field.name}]"] =
getattr(query, field.name)` of `_queries_to_params`, on the dict's lookup
function (a later assignment to the same key overwrites an earlier one). -/
def condStep (name : String) (p : String → Option String)
    (fv : String × String) : String → Option String :=
  fun k => if k = paramKey name fv.1 then some fv.2 else p k

/-- The inner `for field in fields(query)` loop of `_queries_to_params`. -/
def queryStep (params : String → Option String) (q : Query) :
    String → Option String :=
  q.conds.foldl (condStep q.name) params

/-- `_queries_to_params`: folds every query's condition fields into one
params dict, starting from the empty dict. -/
def queries_to_params (queries : List Query) : String → Option String :=
  queries.foldl queryStep (fun _ => none)

/-- `ClientCatalog._get_class`: `type(self)` for `item["type"] == "catalog"`,
otherwise `self.container_dispatch[item["attributes"]["container"]]` — a
missing dict key raises `KeyError`. -/
def get_class (c : Catalog) (item : Item) : Except PyErr NodeCls :=
  if item.type = "catalog" then .ok .catalog
  else
    match c.containerDispatch item.container with
    | some t => .ok (.containerCls t)
    | none => .error (.keyError item.container)

/-- The child-node construction shared by `__getitem__`, `_items_slice` and
`_item_by_index`: `cls(self._client, path=self._path + (item["id"],),
metadata=item["attributes"]["metadata"], ...)`. -/
def mkNode (cls : NodeCls) (c : Catalog) (item : Item) : Node :=
  { cls := cls
    client := c.client
    path := c.path ++ [item.id]
    metadata := item.metadata }

/-- `ClientCatalog.__getitem__` applied to the `data` list of the key-lookup
response: `if not data: raise KeyError(key)`, then
`assert len(data) == 1`, then unpack the single item and construct its
class on `self._path + (item["id"],)`. -/
def ClientCatalog.getitem (c : Catalog) (key : String) (data : List Item) :
    Except PyErr Node :=
  match data with
  | [] => .error (.keyError key)
  | [item] => (get_class c item).map fun cls => mkNode cls c item
  | _ :: _ :: _ => .error .assertionError

/-- `numpy.frombuffer(content, dtype)`: reinterprets `nbytes` raw bytes as a
flat array of elements of byte width `itemsize`; raises `ValueError` when
the buffer length is not a multiple of the element size, otherwise yields
the element count. -/
def frombuffer (nbytes itemsize : Nat) : Except PyErr Nat :=
  if itemsize = 0 then .error .valueError
  else if nbytes % itemsize ≠ 0 then .error .valueError
  else .ok (nbytes / itemsize)

/-- `.reshape(shape)` on a flat array of `count` elements: raises
`ValueError` unless `count` equals the product of `shape`'s extents. -/
def npReshape (count : Nat) (shape : List Nat) : Except PyErr (List Nat) :=
  if count = shape.prod then .ok shape else .error .valueError

/-- `ClientArraySource._get_block` applied to a response body of `nbytes`
bytes: `numpy.frombuffer(response.content, dtype=dtype).reshape(shape)`,
where `itemsize` is the element byte width of `dtype`.  The result is
identified by its shape. -/
def ClientArraySource.get_block (nbytes itemsize : Nat) (shape : List Nat) :
    Except PyErr (List Nat) :=
  frombuffer nbytes itemsize >>= fun count => npReshape count shape

/-- One `/search` page response for plain iteration: `data` (only the ids
matter to `__iter__`), `links["next"]` as the index of the next page (null
when absent), and `meta["count"]`. -/
structure SearchPage where
  ids : List String
  next : Option Nat
  count : Nat
  deriving DecidableEq, Repr

/-- `ClientCatalog.__iter__`: starting from the entry url, fetch the page,
yield every item's id, then follow `links["next"]`; the loop ends exactly
when the next link is null.  `pages` maps each page url (an index) to its
response; `fuel` bounds the walk so the definition is total even on a
server whose links loop. -/
def ClientCatalog.iterKeys (pages : List SearchPage) : Nat → Nat → List String
  | 0, _ => []
  | fuel + 1, url =>
    match pages[url]? with
    | none => []
    | some page =>
      page.ids ++
        match page.next with
        | none => []
        | some u => ClientCatalog.iterKeys pages fuel u

/-- `ClientCatalog.__len__`: one request to the entry url with
`fields=""`, returning `response.json()["meta"]["count"]`. -/
def ClientCatalog.lenResult (pages : List SearchPage) : Except PyErr Nat :=
  match pages[0]? with
  | some page => .ok page.count
  | none => .error .valueError

/-- A linear page chain: page `i` holds `pd[i]` and links to page `i + 1`,
the last page's next link is null, and every page reports `total` as
`meta["count"]`. -/
def mkChain (total : Nat) (pd : List (List String)) : List SearchPage :=
  pd.enum.map fun p =>
    { ids := p.2
      next := if p.1 + 1 < pd.length then some (p.1 + 1) else none
      count := total }

/-- The inner `for item in response.json()["data"]` loop of
`ClientCatalog._keys_slice` for one page, with `stop` present: each
iteration first draws `next(item_counter)` and `break`s out of the page
when it equals `stop`, otherwise yields the item.  Returns the yielded
items and the counter state after the page. -/
def slicePage (stop : Nat) : List α → Nat → List α × Nat
  | [], c => ([], c)
  | x :: xs, c =>
    if c = stop then ([], c + 1)
    else
      let r := slicePage stop xs (c + 1)
      (x :: r.1, r.2)

/-- The outer `while next_page_url is not None` loop of
`ClientCatalog._keys_slice` with `stop` present: a `break` leaves only the
inner page loop, so the walk always proceeds to the next page of the
chain, carrying the counter along. -/
def slicePages (stop : Nat) : List (List α) → Nat → List α
  | [], _ => []
  | p :: ps, c =>
    let r := slicePage stop p c
    r.1 ++ slicePages stop ps r.2

/-- `ClientCatalog._keys_slice(start, stop)`: requests
`page[offset]={start}` and walks the chain of pages the server serves from
that offset (`chain`), with `item_counter = itertools.count(start)`.  When
`stop is None` the counter is never drawn (short-circuit `and`) and every
item of every page is yielded. -/
def ClientCatalog.keys_slice (start : Nat) (stop : Option Nat)
    (chain : List (List String)) : List String :=
  match stop with
  | none => chain.flatten
  | some s => slicePages s chain start

/-- `ClientCatalog._items_slice(start, stop)`: the same page walk and
counter as `_keys_slice` (`chain` is what the server serves from
`page[offset]={start}` with `fields=[metadata, container]`), but each
surviving item is yielded as `(key, cls(self._client, path=self._path +
(item["id"],), ...))`; an unknown container tag raises at dispatch. -/
def ClientCatalog.items_slice (c : Catalog) (start : Nat) (stop : Option Nat)
    (chain : List (List Item)) : Except PyErr (List (String × Node)) :=
  let kept :=
    match stop with
    | none => chain.flatten
    | some s => slicePages s chain start
  kept.mapM fun item => (get_class c item).map fun cls => (item.id, mkNode cls c item)

/-- `ClientCatalog.items`: walks pages like `__iter__` but the yield
expression is `cls(self._client, path=self.path + [item["id"]], ...)`.
`ClientCatalog` never defines an attribute or property `path` (its
`__init__` sets `_path`), so evaluating the first yielded element raises
`AttributeError`; pages with empty `data` are walked without error. -/
def ClientCatalog.itemsResult : List (List Item) → Except PyErr (List Node)
  | [] => .ok []
  | page :: rest =>
    match page with
    | [] => ClientCatalog.itemsResult rest
    | _ :: _ => .error .attributeError

/-- The server behaviour that `_item_by_index` and the indexers consume:
`count` is the total reported by `__len__`, and `pageAt i` is the `data`
list returned for `page[offset]={i}&page[limit]=1`. -/
structure PageServer where
  count : Nat
  pageAt : Int → List Item

/-- `ClientCatalog._item_by_index`: `if index >= len(self): raise
IndexError`, else request `page[offset]={index}&page[limit]=1` and unpack
`(item,) = response.json()["data"]` (a `ValueError` when the data list
does not hold exactly one item), then build `(key, value)`. -/
def ClientCatalog.item_by_index (c : Catalog) (srv : PageServer) (index : Int) :
    Except PyErr (String × Node) :=
  if index ≥ (srv.count : Int) then .error .indexError
  else
    match srv.pageAt index with
    | [item] => (get_class c item).map fun cls => (item.id, mkNode cls c item)
    | _ => .error .valueError

/-- The `page[offset]` parameter `_item_by_index` puts in its request url
(`f"...?page[offset]={index}&page[limit]=1"`), or none when the range
check raises before any request is issued. -/
def ClientCatalog.item_by_index_offset (srv : PageServer) (index : Int) :
    Option Int :=
  if index ≥ (srv.count : Int) then none else some index

/-- The argument given to an indexer: a Python `int`, a `slice` (shown
after `slice_to_interval`, which lives in `in_memory_catalog`, outside
this package: a half-open `[start, stop)` with `stop` possibly absent), or
a value of any other type. -/
inductive IndexArg where
  | int (i : Int)
  | slice (start : Nat) (stop : Option Nat)
  | other
  deriving Repr

/-- What a keys indexer call evaluates to: one key for an `int` argument,
`list(self._keys_slice(...))` for a slice. -/
inductive KeysResult where
  | key (k : String)
  | keyList (ks : List String)
  deriving DecidableEq, Repr

/-- `ClientCatalog._keys_indexer`: dispatch on the argument's type; an
argument that is neither `int` nor `slice` raises `TypeError`.  For the
slice branch, `chain` is the page chain the server serves from
`page[offset]=start`. -/
def ClientCatalog.keys_indexer (c : Catalog) (srv : PageServer)
    (chain : List (List String)) (arg : IndexArg) : Except PyErr KeysResult :=
  match arg with
  | .int i => (ClientCatalog.item_by_index c srv i).map fun kv => .key kv.1
  | .slice start stop => .ok (.keyList (ClientCatalog.keys_slice start stop chain))
  | .other => .error .typeError

/-- What an items indexer call evaluates to: one `(key, value)` pair for
an `int` argument, `list(self._items_slice(...))` for a slice. -/
inductive ItemsResult where
  | item (kv : String × Node)
  | itemList (kvs : List (String × Node))
  deriving DecidableEq, Repr

/-- `ClientCatalog._items_indexer`: dispatch on the argument's type; an
argument that is neither `int` nor `slice` raises `TypeError`.  For the
slice branch, `chainI` is the page chain served from `page[offset]=start`. -/
def ClientCatalog.items_indexer (c : Catalog) (srv : PageServer)
    (chainI : List (List Item)) (arg : IndexArg) : Except PyErr ItemsResult :=
  match arg with
  | .int i => (ClientCatalog.item_by_index c srv i).map .item
  | .slice start stop =>
    (ClientCatalog.items_slice c start stop chainI).map .itemList
  | .other => .error .typeError

/-- What `_values_indexer` evaluates to: `pyNone` models the `None` that
Python returns when control falls off the end of the function. -/
inductive ValuesResult where
  | pyNone
  | values (xs : List Node)
  deriving DecidableEq, Repr

/-- `ClientCatalog._values_indexer`: the `int` branch binds
`_key, value = self._item_by_index(index)` but has no `return` statement,
so on success the call returns `None`; the slice branch returns the list
of values; any other argument raises `TypeError`. -/
def ClientCatalog.values_indexer (c : Catalog) (srv : PageServer)
    (chainI : List (List Item)) (arg : IndexArg) : Except PyErr ValuesResult :=
  match arg with
  | .int i => (ClientCatalog.item_by_index c srv i).map fun _ => .pyNone
  | .slice start stop =>
    (ClientCatalog.items_slice c start stop chainI).map fun kvs =>
      .values (kvs.map Prod.snd)
  | .other => .error .typeError

/-- `itertools.product(*rows)`: all tuples drawing one element from each
row, rightmost position varying fastest. -/
def listProd : List (List Nat) → List (List Nat)
  | [] => [[]]
  | xs :: rest => xs.flatMap fun x => (listProd rest).map fun t => x :: t

/-- The block coordinates `ClientArraySource.read` loops over:
`itertools.product(*(range(len(n)) for n in chunks))`. -/
def blockCoords (chunks : List (List Nat)) : List (List Nat) :=
  listProd (chunks.map fun row => List.range row.length)

/-- The per-task block shape `tuple(chunks[dim][i] for dim, i in
enumerate(block))`. -/
def blockShape (chunks : List (List Nat)) (block : List Nat) : List Nat :=
  block.enum.map fun p => (chunks.getD p.1 []).getD p.2 0

/-- The dask task dict built by `ClientArraySource.read`: one deferred
entry `(self._get_block, block, dtype, block-shape)` per block coordinate.
Each task is identified by its coordinate and carries its block shape;
`_get_block` is stored, never called. -/
def ClientArraySource.readTasks (chunks : List (List Nat)) :
    List (List Nat × List Nat) :=
  (blockCoords chunks).map fun b => (b, blockShape chunks b)

/-- The HTTP requests the client can issue. -/
inductive Request where
  | metadataReq (path : List String)
  | searchReq (path : List String)
  | blobReq (path : List String) (block : List Nat)
  deriving DecidableEq, Repr

/-- The requests issued while `ClientArraySource.read` runs: exactly the
one `GET /metadata/{path}?fields=structure` inside `self.describe()`.
Building the task dict stores bound-method tuples without invoking them,
and `dask.array.Array(...)` fetches nothing. -/
def ClientArraySource.readRequests (path : List String) : List Request :=
  [.metadataReq path]

/-- Structural equality of modelled call results is decidable, so concrete
runs of the embedding can be checked by evaluation. -/
instance {ε α : Type} [DecidableEq ε] [DecidableEq α] :
    DecidableEq (Except ε α) := fun x y =>
  match x, y with
  | .ok a, .ok b =>
    if h : a = b then isTrue (congrArg Except.ok h)
    else isFalse fun hh => h (Except.ok.inj hh)
  | .error a, .error b =>
    if h : a = b then isTrue (congrArg Except.error h)
    else isFalse fun hh => h (Except.error.inj hh)
  | .ok _, .error _ => isFalse fun hh => Except.noConfusion hh
  | .error _, .ok _ => isFalse fun hh => Except.noConfusion hh

/-! ## Theorems -/

/-- `_get_class` can only fail with a dict-lookup `KeyError` (for an
unregistered container tag). -/
theorem get_class_error_is_keyError (c : Catalog) (item : Item) (e : PyErr)
    (h : get_class c item = .error e) : ∃ t, e = .keyError t := by
  by_cases ht : item.type = "catalog"
  · simp [get_class, ht] at h
  · cases hd : c.containerDispatch item.container with
    | none =>
      simp [get_class, ht, hd] at h
      exact ⟨item.container, h.symm⟩
    | some t => simp [get_class, ht, hd] at h

/-- C7: for every block fetch, when the response byte length equals the
product of `shape`'s extents times the element byte width, `_get_block`
returns the buffer reshaped to `shape`; for any other byte length it
raises `ValueError` (from `numpy.frombuffer` or `.reshape`) rather than
returning a truncated or misshapen buffer. -/
theorem C7_get_block_validates (nbytes itemsize : Nat) (shape : List Nat)
    (hpos : 0 < itemsize) :
    (nbytes = shape.prod * itemsize →
      ClientArraySource.get_block nbytes itemsize shape = .ok shape) ∧
    (nbytes ≠ shape.prod * itemsize →
      ClientArraySource.get_block nbytes itemsize shape = .error .valueError) := by
  have hz : itemsize ≠ 0 := Nat.pos_iff_ne_zero.mp hpos
  constructor
  · intro he
    subst he
    simp [ClientArraySource.get_block, frombuffer, npReshape, hz,
      Nat.mul_mod_left, Nat.mul_div_cancel _ hpos, Bind.bind, Except.bind]
  · intro hne
    by_cases hmod : nbytes % itemsize = 0
    · have hdiv : nbytes / itemsize ≠ shape.prod := by
        intro hd
        apply hne
        have hc := Nat.div_mul_cancel (Nat.dvd_of_mod_eq_zero hmod)
        rw [hd] at hc
        exact hc.symm
      simp [ClientArraySource.get_block, frombuffer, npReshape, hz, hmod, hdiv,
        Bind.bind, Except.bind]
    · simp [ClientArraySource.get_block, frombuffer, npReshape, hz, hmod,
        Bind.bind, Except.bind]

/-- Witness for C7 at the spec's own example: a block endpoint answering 3
bytes for a 2×2 array of 8-byte elements fails, and the well-sized 32-byte
answer is reshaped. -/
theorem C7_witness :
    ClientArraySource.get_block 3 8 [2, 2] = .error .valueError ∧
    ClientArraySource.get_block 32 8 [2, 2] = .ok [2, 2] := by
  have h3 := C7_get_block_validates 3 8 [2, 2] (by decide)
  have h32 := C7_get_block_validates 32 8 [2, 2] (by decide)
  exact ⟨h3.2 (by decide), h32.1 (by decide)⟩

/-- C3: `__getitem__` on the key-lookup response: an empty `data` list
raises `KeyError(key)` (and nothing else); two or more items trip the
uniqueness assertion, raising `AssertionError` — distinct from the
missing-key error — and never returning any node; exactly one item whose
class dispatch succeeds yields the child node on `path + (id,)`. -/
theorem C3_getitem_matches (c : Catalog) (key : String) (data : List Item) :
    (data = [] → ClientCatalog.getitem c key data = .error (.keyError key)) ∧
    (2 ≤ data.length →
      ClientCatalog.getitem c key data = .error .assertionError ∧
      ClientCatalog.getitem c key data ≠ .error (.keyError key) ∧
      ∀ n : Node, ClientCatalog.getitem c key data ≠ .ok n) ∧
    (∀ item cls, data = [item] → get_class c item = .ok cls →
      ClientCatalog.getitem c key data = .ok (mkNode cls c item)) := by
  refine ⟨fun h => by subst h; rfl, fun h2 => ?_, fun item cls hd hcls => ?_⟩
  · match data, h2 with
    | a :: b :: rest, _ =>
      refine ⟨rfl, by simp [ClientCatalog.getitem], by simp [ClientCatalog.getitem]⟩
  · subst hd
    simp [ClientCatalog.getitem, hcls, Except.map]

/-- Witness for C3: a concrete catalog and the three response shapes. -/
theorem C3_witness :
    ClientCatalog.getitem (mkCatalog 7 ["p"] "m" (fun _ => none) []) "k" []
      = .error (.keyError "k") ∧
    ClientCatalog.getitem (mkCatalog 7 ["p"] "m" (fun _ => none) []) "k"
      [⟨"a", "catalog", "", "m1"⟩, ⟨"b", "catalog", "", "m2"⟩]
      = .error .assertionError ∧
    ClientCatalog.getitem (mkCatalog 7 ["p"] "m" (fun _ => none) []) "a"
      [⟨"a", "thing", "array", "m2"⟩]
      = .ok (mkNode (.containerCls 0) (mkCatalog 7 ["p"] "m" (fun _ => none) [])
          ⟨"a", "thing", "array", "m2"⟩) := by
  refine ⟨(C3_getitem_matches _ "k" []).1 rfl,
    ((C3_getitem_matches (mkCatalog 7 ["p"] "m" (fun _ => none) []) "k"
      [⟨"a", "catalog", "", "m1"⟩, ⟨"b", "catalog", "", "m2"⟩]).2.1 (by decide)).1,
    (C3_getitem_matches (mkCatalog 7 ["p"] "m" (fun _ => none) []) "a"
      [⟨"a", "thing", "array", "m2"⟩]).2.2 _ _ rfl rfl⟩

/-- C10 (implicit): a negative integer index passes the only range check
(`index >= len(self)`), so `_item_by_index` issues its page request with
the negative value forwarded verbatim as `page[offset]`, and never raises
`IndexError` for it. -/
theorem C10_negative_index_unchecked (c : Catalog) (srv : PageServer)
    (index : Int) (hneg : index < 0) :
    ClientCatalog.item_by_index_offset srv index = some index ∧
    ClientCatalog.item_by_index c srv index ≠ .error .indexError := by
  have hlt : ¬ index ≥ (srv.count : Int) := by
    have : (0 : Int) ≤ (srv.count : Int) := Int.natCast_nonneg _
    omega
  refine ⟨by simp [ClientCatalog.item_by_index_offset, hlt], ?_⟩
  simp only [ClientCatalog.item_by_index, if_neg hlt]
  cases hp : srv.pageAt index with
  | nil => simp
  | cons a tl =>
    cases tl with
    | nil =>
      cases hgc : get_class c a with
      | ok cls => simp [hgc, Except.map]
      | error e =>
        obtain ⟨t, rfl⟩ := get_class_error_is_keyError c a e hgc
        simp [hgc, Except.map]
    | cons b tl2 => simp

/-- Witness for C10: index `-1` against a server of one item. -/
theorem C10_witness :
    ClientCatalog.item_by_index_offset ⟨1, fun _ => []⟩ (-1) = some (-1) ∧
    ClientCatalog.item_by_index (mkCatalog 7 ["p"] "m" (fun _ => none) [])
      ⟨1, fun _ => []⟩ (-1) ≠ .error .indexError :=
  C10_negative_index_unchecked (mkCatalog 7 ["p"] "m" (fun _ => none) [])
    ⟨1, fun _ => []⟩ (-1) (by decide)

/-- C9: for an integer index at or past the reported length, every
indexer's int branch reaches `_item_by_index`'s range check and raises
`IndexError`; for an argument that is neither `int` nor `slice`, every
indexer raises `TypeError`.  The indexers return an evaluated result (the
slice branches call `list(...)`), so both errors surface at the indexing
call itself, not inside a lazy sequence. -/
theorem C9_indexer_range_and_type_errors (c : Catalog) (srv : PageServer)
    (chain : List (List String)) (chainI : List (List Item)) (i : Int)
    (hi : i ≥ (srv.count : Int)) :
    ClientCatalog.keys_indexer c srv chain (.int i) = .error .indexError ∧
    ClientCatalog.items_indexer c srv chainI (.int i) = .error .indexError ∧
    ClientCatalog.values_indexer c srv chainI (.int i) = .error .indexError ∧
    ClientCatalog.keys_indexer c srv chain .other = .error .typeError ∧
    ClientCatalog.items_indexer c srv chainI .other = .error .typeError ∧
    ClientCatalog.values_indexer c srv chainI .other = .error .typeError := by
  have hb : ClientCatalog.item_by_index c srv i = .error .indexError := by
    simp [ClientCatalog.item_by_index, if_pos hi]
  refine ⟨?_, ?_, ?_, rfl, rfl, rfl⟩ <;>
    simp [ClientCatalog.keys_indexer, ClientCatalog.items_indexer,
      ClientCatalog.values_indexer, hb, Except.map]

/-- Witness for C9: a catalog of length 5 indexed at 5, and a non-int,
non-slice argument. -/
theorem C9_witness :
    ClientCatalog.keys_indexer (mkCatalog 7 ["p"] "m" (fun _ => none) [])
      ⟨5, fun _ => []⟩ [] (.int 5) = .error .indexError ∧
    ClientCatalog.values_indexer (mkCatalog 7 ["p"] "m" (fun _ => none) [])
      ⟨5, fun _ => []⟩ [] .other = .error .typeError := by
  have h := C9_indexer_range_and_type_errors
    (mkCatalog 7 ["p"] "m" (fun _ => none) []) ⟨5, fun _ => []⟩ [] [] 5 (by decide)
  exact ⟨h.1, h.2.2.2.2.2⟩

/-- C8: the claim fails on the code.  `_values_indexer`'s int branch binds
`_key, value = self._item_by_index(index)` but has no `return`, so the
call returns `None` even though `_item_by_index` fetched and built the
`(key, value)` pair: here a catalog holding one item at position 0 gives
`None` from the values indexer while the fetched value exists. -/
theorem C8_values_indexer_drops_value :
    ClientCatalog.values_indexer (mkCatalog 7 ["p"] "m" (fun _ => none) [])
      ⟨1, fun i => if i = 0 then [⟨"a", "thing", "array", "m2"⟩] else []⟩ []
      (.int 0) = .ok .pyNone ∧
    ClientCatalog.item_by_index (mkCatalog 7 ["p"] "m" (fun _ => none) [])
      ⟨1, fun i => if i = 0 then [⟨"a", "thing", "array", "m2"⟩] else []⟩ 0
      = .ok ("a", mkNode (.containerCls 0)
          (mkCatalog 7 ["p"] "m" (fun _ => none) []) ⟨"a", "thing", "array", "m2"⟩) ∧
    ClientCatalog.values_indexer (mkCatalog 7 ["p"] "m" (fun _ => none) [])
      ⟨1, fun i => if i = 0 then [⟨"a", "thing", "array", "m2"⟩] else []⟩ []
      (.int 0) ≠ .ok (.values [mkNode (.containerCls 0)
          (mkCatalog 7 ["p"] "m" (fun _ => none) []) ⟨"a", "thing", "array", "m2"⟩]) :=
  ⟨rfl, rfl, by decide⟩

/-- C1: the claim fails on the code.  The yield expression of
`ClientCatalog.items` is a bare constructed node (not an `(id, node)`
pair) built with `self.path + [item["id"]]`, and `ClientCatalog` defines
no attribute `path` (its `__init__` stores `_path`), so processing the
first item of any non-empty listing raises `AttributeError`; `values()`,
which unpacks `for _, value in self.items()`, shows pairs were intended. -/
theorem C1_items_raises_attributeError :
    ClientCatalog.itemsResult [[⟨"a", "catalog", "", "m"⟩]]
      = .error .attributeError ∧
    ClientCatalog.itemsResult [[], [⟨"a", "catalog", "", "m"⟩]]
      = .error .attributeError :=
  ⟨rfl, rfl⟩

/-- C2: the claim fails on the code.  In `_keys_slice` the `break` on
`next(item_counter) == stop` leaves only the inner per-page loop; the
outer loop still follows the next link, and on later pages the counter
(already past `stop`) never matches again, so every item of every later
page is yielded.  For items `a, b, c, d` served as pages `[a, b], [c, d]`
and the slice `[0, 1)`, the walk yields `a, c, d` instead of exactly
`a`. -/
theorem C2_slice_yields_later_pages :
    ClientCatalog.keys_slice 0 (some 1) [["a", "b"], ["c", "d"]]
      = ["a", "c", "d"] ∧
    ClientCatalog.keys_slice 0 (some 1) [["a", "b"], ["c", "d"]]
      ≠ [["a", "b"], ["c", "d"]].flatten.take 1 :=
  ⟨rfl, by decide⟩

/-- Folding a query's condition fields into the params dict never erases
a key that is already present. -/
theorem condsFoldl_isSome (name : String) (conds : List (String × String))
    (p : String → Option String) (k : String) (h : (p k).isSome = true) :
    ((conds.foldl (condStep name) p) k).isSome = true := by
  induction conds generalizing p with
  | nil => exact h
  | cons fv rest ih =>
    refine ih (condStep name p fv) ?_
    by_cases hk : k = paramKey name fv.1 <;> simp [condStep, hk, h]

/-- After folding a query's condition fields, every one of its fields has
an entry in the params dict. -/
theorem condsFoldl_mem (name : String) (conds : List (String × String))
    (p : String → Option String) (f v : String) (hmem : (f, v) ∈ conds) :
    ((conds.foldl (condStep name) p) (paramKey name f)).isSome = true := by
  induction conds generalizing p with
  | nil => cases hmem
  | cons fv rest ih =>
    rcases List.mem_cons.mp hmem with heq | htl
    · refine condsFoldl_isSome name rest (condStep name p fv) _ ?_
      simp [condStep, ← heq]
    · exact ih (condStep name p fv) htl

/-- Folding further queries into the params dict never erases a key that
is already present. -/
theorem queriesFoldl_isSome (queries : List Query)
    (p : String → Option String) (k : String) (h : (p k).isSome = true) :
    ((queries.foldl queryStep p) k).isSome = true := by
  induction queries generalizing p with
  | nil => exact h
  | cons q rest ih => exact ih (queryStep p q) (condsFoldl_isSome q.name q.conds p k h)

/-- Every condition field of every active query ends up with an entry in
`_queries_to_params`' dict. -/
theorem queries_to_params_isSome_of_mem (queries : List Query) (q : Query)
    (f v : String) (hq : q ∈ queries) (hf : (f, v) ∈ q.conds) :
    (queries_to_params queries (paramKey q.name f)).isSome = true := by
  suffices h : ∀ p : String → Option String,
      ((queries.foldl queryStep p) (paramKey q.name f)).isSome = true from
    h (fun _ => none)
  intro p
  induction queries generalizing p with
  | nil => cases hq
  | cons a rest ih =>
    rcases List.mem_cons.mp hq with heq | htl
    · subst heq
      exact queriesFoldl_isSome rest (queryStep p q)
        (paramKey q.name f) (condsFoldl_mem q.name q.conds p f v hf)
    · exact ih htl (queryStep p a)

/-- C4: `search` never mutates the receiver — it builds a new catalog with
the same client handle, path, metadata and container-dispatch mapping and
with the receiver's query tuple extended by the new query; composing two
searches yields the query list `queries + (q1,) + (q2,)`, whose request
params contain an entry for every condition field of `q1` and of `q2`,
while the receiver's own params are still derived from its own (possibly
empty) query list alone. -/
theorem C4_search_appends_queries (c : Catalog) (q1 q2 : Query)
    (client : Nat) (path : List String) (md : String)
    (d : String → Option Nat) (qs : List Query)
    (hc : c = mkCatalog client path md d qs) :
    (ClientCatalog.search c q1).client = c.client ∧
    (ClientCatalog.search c q1).path = c.path ∧
    (ClientCatalog.search c q1).metadata = c.metadata ∧
    (ClientCatalog.search c q1).containerDispatch = c.containerDispatch ∧
    (ClientCatalog.search c q1).queries = c.queries ++ [q1] ∧
    (ClientCatalog.search (ClientCatalog.search c q1) q2).queries
      = c.queries ++ [q1] ++ [q2] ∧
    (∀ f v, (f, v) ∈ q1.conds →
      (queries_to_params
        (ClientCatalog.search (ClientCatalog.search c q1) q2).queries
        (paramKey q1.name f)).isSome = true) ∧
    (∀ f v, (f, v) ∈ q2.conds →
      (queries_to_params
        (ClientCatalog.search (ClientCatalog.search c q1) q2).queries
        (paramKey q2.name f)).isSome = true) ∧
    (c.queries = [] → ∀ k, queries_to_params c.queries k = none) := by
  have hdisp : (ClientCatalog.search c q1).containerDispatch
      = c.containerDispatch := by
    subst hc
    funext tag
    simp only [ClientCatalog.search, mkCatalog]
    cases hd : d tag <;> cases hdd : defaultDispatch tag <;> simp [hd, hdd]
  have hqs : (ClientCatalog.search (ClientCatalog.search c q1) q2).queries
      = c.queries ++ [q1] ++ [q2] := by
    simp [ClientCatalog.search, mkCatalog]
  refine ⟨rfl, rfl, rfl, hdisp, rfl, hqs, ?_, ?_, ?_⟩
  · intro f v hf
    rw [hqs]
    exact queries_to_params_isSome_of_mem _ q1 f v (by simp) hf
  · intro f v hf
    rw [hqs]
    exact queries_to_params_isSome_of_mem _ q2 f v (by simp) hf
  · intro hq k
    rw [hq]
    rfl

/-- Witness for C4: a catalog with no queries, narrowed by a full-text
query and then a key-lookup query. -/
theorem C4_witness :
    (ClientCatalog.search (mkCatalog 7 ["p"] "m" (fun _ => none) [])
      ⟨"fulltext", [("text", "hello")]⟩).queries
      = [⟨"fulltext", [("text", "hello")]⟩] ∧
    (queries_to_params
      (ClientCatalog.search
        (ClientCatalog.search (mkCatalog 7 ["p"] "m" (fun _ => none) [])
          ⟨"fulltext", [("text", "hello")]⟩)
        ⟨"lookup", [("key", "a")]⟩).queries
      (paramKey "fulltext" "text")).isSome = true ∧
    (queries_to_params
      (ClientCatalog.search
        (ClientCatalog.search (mkCatalog 7 ["p"] "m" (fun _ => none) [])
          ⟨"fulltext", [("text", "hello")]⟩)
        ⟨"lookup", [("key", "a")]⟩).queries
      (paramKey "lookup" "key")).isSome = true ∧
    queries_to_params (mkCatalog 7 ["p"] "m" (fun _ => none) []).queries
      (paramKey "fulltext" "text") = none := by
  have h := C4_search_appends_queries (mkCatalog 7 ["p"] "m" (fun _ => none) [])
    ⟨"fulltext", [("text", "hello")]⟩ ⟨"lookup", [("key", "a")]⟩
    7 ["p"] "m" (fun _ => none) [] rfl
  refine ⟨h.2.2.2.2.1, ?_, ?_, h.2.2.2.2.2.2.2.2 rfl _⟩
  · exact h.2.2.2.2.2.2.1 "text" "hello" (by decide)
  · exact h.2.2.2.2.2.2.2.1 "key" "a" (by decide)

/-- On a linear chain built by `mkChain`, a page walk entered at page `i`
with enough fuel yields the ids of pages `i, i + 1, ...` in order and
stops at the last page's null next link. -/
theorem iterKeys_mkChain (total : Nat) (pd : List (List String)) :
    ∀ (fuel i : Nat), pd.length - i ≤ fuel →
      ClientCatalog.iterKeys (mkChain total pd) fuel i = (pd.drop i).flatten := by
  intro fuel
  induction fuel with
  | zero =>
    intro i h
    have hle : pd.length ≤ i := by omega
    simp [ClientCatalog.iterKeys, List.drop_eq_nil_of_le hle]
  | succ fuel ih =>
    intro i h
    have heq : ClientCatalog.iterKeys (mkChain total pd) (fuel + 1) i =
        match (mkChain total pd)[i]? with
        | none => []
        | some page =>
          page.ids ++
            match page.next with
            | none => []
            | some u => ClientCatalog.iterKeys (mkChain total pd) fuel u := rfl
    by_cases hi : i < pd.length
    · have hma : (mkChain total pd)[i]? =
          some ⟨pd[i], if i + 1 < pd.length then some (i + 1) else none, total⟩ := by
        simp [mkChain, List.getElem?_map, List.getElem?_enum,
          List.getElem?_eq_getElem hi]
      rw [heq, hma]
      have hdrop : pd.drop i = pd[i] :: pd.drop (i + 1) :=
        List.drop_eq_getElem_cons hi
      by_cases hi2 : i + 1 < pd.length
      · have hrec := ih (i + 1) (by omega)
        simp only [if_pos hi2, hrec, hdrop, List.flatten_cons]
      · have hnil : pd.drop (i + 1) = [] := List.drop_eq_nil_of_le (by omega)
        simp only [if_neg hi2, hdrop, hnil, List.flatten_cons, List.flatten_nil,
          List.append_nil]
    · have hle : pd.length ≤ i := by omega
      have hna : (mkChain total pd)[i]? = none := by
        apply List.getElem?_eq_none
        simp [mkChain, List.enum_length, hle]
      rw [heq, hna]
      simp [List.drop_eq_nil_of_le hle]

/-- C5: for a server holding the items of `pd` split across pages of
arbitrary sizes and reporting their total as `meta["count"]`, `__iter__`
follows each page's next link, stops exactly at the null link, and yields
exactly the ids in server order (any fuel bound at least the page count
gives the same walk); `__len__` returns the server-reported total. -/
theorem C5_iteration_follows_next_links (pd : List (List String)) (fuel : Nat)
    (hne : pd ≠ []) (hfuel : pd.length ≤ fuel) :
    ClientCatalog.iterKeys (mkChain pd.flatten.length pd) fuel 0 = pd.flatten ∧
    ClientCatalog.lenResult (mkChain pd.flatten.length pd)
      = .ok pd.flatten.length := by
  constructor
  · have h := iterKeys_mkChain pd.flatten.length pd fuel 0 (by omega)
    simpa using h
  · match pd, hne with
    | p0 :: rest, _ => simp [ClientCatalog.lenResult, mkChain]

/-- Witness for C5: three items split over two pages of sizes 2 and 1. -/
theorem C5_witness :
    ClientCatalog.iterKeys (mkChain 3 [["a", "b"], ["c"]]) 5 0
      = ["a", "b", "c"] ∧
    ClientCatalog.lenResult (mkChain 3 [["a", "b"], ["c"]]) = .ok 3 := by
  have h := C5_iteration_follows_next_links [["a", "b"], ["c"]] 5
    (by decide) (by decide)
  simpa using h

/-- Membership in `itertools.product`: a tuple is produced exactly when it
picks one element from each input row, position by position. -/
theorem mem_listProd {ls : List (List Nat)} {b : List Nat} :
    b ∈ listProd ls ↔ List.Forall₂ (fun x xs => x ∈ xs) b ls := by
  induction ls generalizing b with
  | nil =>
    simp only [listProd, List.mem_singleton]
    constructor
    · rintro rfl
      exact List.Forall₂.nil
    · intro h
      cases h
      rfl
  | cons xs rest ih =>
    simp only [listProd, List.mem_flatMap, List.mem_map]
    constructor
    · rintro ⟨x, hx, t, ht, rfl⟩
      exact List.Forall₂.cons hx (ih.mp ht)
    · intro h
      cases h with
      | cons hx ht => exact ⟨_, hx, _, ih.mpr ht, rfl⟩

/-- `itertools.product` over duplicate-free rows produces each tuple once. -/
theorem nodup_listProd {ls : List (List Nat)} (h : ∀ l ∈ ls, l.Nodup) :
    (listProd ls).Nodup := by
  induction ls with
  | nil => simp [listProd]
  | cons xs rest ih =>
    have hxs : xs.Nodup := h xs (by simp)
    have hrest : (listProd rest).Nodup := ih fun l hl => h l (by simp [hl])
    rw [listProd, List.nodup_flatMap]
    refine ⟨fun x _ => hrest.map fun a b hab => ?_, ?_⟩
    · injection hab
    · refine hxs.imp ?_
      intro a b hne z hz1 hz2
      obtain ⟨t1, _, hz1e⟩ := List.mem_map.mp hz1
      obtain ⟨t2, _, hz2e⟩ := List.mem_map.mp hz2
      rw [← hz1e] at hz2e
      exact hne (List.head_eq_of_cons_eq hz2e.symm)

/-- `blockShape` has one extent per dimension of the block coordinate. -/
theorem blockShape_length (chunks : List (List Nat)) (b : List Nat) :
    (blockShape chunks b).length = b.length := by
  simp [blockShape, List.enum_length]

/-- The extent of `blockShape` in dimension `j` is
`chunks[j][block[j]]`. -/
theorem blockShape_getElem? (chunks : List (List Nat)) (b : List Nat)
    (j : Nat) :
    (blockShape chunks b)[j]? =
      (b[j]?).map fun bj => (chunks.getD j []).getD bj 0 := by
  simp only [blockShape, List.getElem?_map, List.getElem?_enum]
  cases b[j]? <;> simp

/-- C6: `read()` builds exactly one deferred task per block coordinate of
the Cartesian product of per-dimension block counts — the task keys are
the coordinates, each coordinate appears once, and a coordinate is
produced exactly when each of its positions indexes that dimension's
chunk list — each task carrying the block shape
`chunks[dim][coordinate[dim]]`; and the only request `read()` itself
issues is the one metadata fetch of `describe()`, never a block(blob)
fetch. -/
theorem C6_read_defers_one_task_per_block (chunks : List (List Nat))
    (path : List String) :
    (ClientArraySource.readTasks chunks).map Prod.fst = blockCoords chunks ∧
    (blockCoords chunks).Nodup ∧
    (∀ b, b ∈ blockCoords chunks ↔
      List.Forall₂ (fun bi row => bi < row.length) b chunks) ∧
    (∀ b sh, (b, sh) ∈ ClientArraySource.readTasks chunks →
      sh.length = b.length ∧
      ∀ j, sh[j]? = (b[j]?).map fun bj => (chunks.getD j []).getD bj 0) ∧
    (∀ r ∈ ClientArraySource.readRequests path, ∀ p bl,
      r ≠ Request.blobReq p bl) := by
  refine ⟨?_, ?_, ?_, ?_, ?_⟩
  · have hid : (Prod.fst ∘ fun b : List Nat => (b, blockShape chunks b)) = id := rfl
    rw [ClientArraySource.readTasks, List.map_map, hid, List.map_id]
  · refine nodup_listProd fun l hl => ?_
    obtain ⟨row, _, hrow⟩ := List.mem_map.mp hl
    rw [← hrow]
    exact List.nodup_range row.length
  · intro b
    rw [blockCoords, mem_listProd, List.forall₂_map_right_iff]
    constructor
    · exact fun h => h.imp fun _ _ h' => List.mem_range.mp h'
    · exact fun h => h.imp fun _ _ h' => List.mem_range.mpr h'

  · intro b sh hmem
    obtain ⟨b', _, heq⟩ := List.mem_map.mp hmem
    have hb : b' = b := congrArg Prod.fst heq
    have hs : blockShape chunks b' = sh := congrArg Prod.snd heq
    subst hb
    subst hs
    exact ⟨blockShape_length chunks b', fun j => blockShape_getElem? chunks b' j⟩
  · intro r hr p bl
    simp only [ClientArraySource.readRequests, List.mem_singleton] at hr
    subst hr
    simp

/-- Witness for C6 at the spec's `(4, 4)` example: chunk grid
`[[2, 2], [2, 2]]`, block coordinate `(0, 1)`. -/
theorem C6_witness :
    (([0, 1], [2, 2]) ∈ ClientArraySource.readTasks [[2, 2], [2, 2]]) ∧
    ([2, 2] : List Nat)[1]? = ((([0, 1] : List Nat)[1]?).map
      fun bj => (([[2, 2], [2, 2]] : List (List Nat)).getD 1 []).getD bj 0) ∧
    (([0, 1] : List Nat) ∈ blockCoords [[2, 2], [2, 2]]) := by
  have h := C6_read_defers_one_task_per_block [[2, 2], [2, 2]] ["x"]
  refine ⟨by decide, ?_, ?_⟩
  · exact (h.2.2.2.1 [0, 1] [2, 2] (by decide)).2 1
  · exact (h.2.2.1 [0, 1]).mpr
      (List.Forall₂.cons (by decide) (List.Forall₂.cons (by decide) List.Forall₂.nil))
